import Mathlib

/-!
# Cooperative preemption demo: `fibonacci` and `main`

A shallow embedding of `codes/go/cooperative_preemption/_site/main.go`.

* Go's `int` is taken at its 64-bit width: values are `Int`s in
  `[minInt, maxInt]` and every addition is followed by `wrapInt`.
* `fibonacci` is a fuel-bounded run of the source loop.  One unit of fuel pays
  for one execution of the loop body; `none` means the fuel ran out while the
  loop condition `i <= n` still held.
* `fmt.Printf` is modelled by a small format interpreter (`sprintf`), and the
  standard output of one call of `fibonacci` is the list of strings written,
  oldest first.
* `main` is modelled as the sequence of actions its goroutine performs, with
  the outcomes of `os.Create` and `trace.Start` supplied by an environment.
-/

namespace CooperativePreemption

/-! ## Machine integers -/

/-- Largest value of Go's `int` on a 64-bit target (`math.MaxInt`). -/
def maxInt : Int := 9223372036854775807

/-- Smallest value of Go's `int` on a 64-bit target (`math.MinInt`). -/
def minInt : Int := -9223372036854775808

/-- Two's-complement reduction to 64 bits: the unique representative of `x`
modulo `2^64` that lies in `[minInt, maxInt]`.  Go's `+` and `++` on `int`
compute the exact result followed by this reduction. -/
def wrapInt (x : Int) : Int :=
  let m := x % 18446744073709551616
  if m < 9223372036854775808 then m else m - 18446744073709551616

/-! ## `fmt.Printf` -/

/-- Decimal rendering of an `int` under the verb `%d`: an optional minus sign
followed by the decimal digits. -/
def formatInt (x : Int) : String := toString x

/-- Expansion of a format string over its arguments.  Only what the program
uses is covered: the verb `%d` consumes the next argument, every other
character is copied. -/
def sprintfAux : List Char → List Int → List Char
  | '%' :: 'd' :: rest, a :: args => (formatInt a).data ++ sprintfAux rest args
  | c :: rest, args => c :: sprintfAux rest args
  | [], _ => []

/-- The text written by `fmt.Printf(format, args...)`. -/
def sprintf (format : String) (args : List Int) : String :=
  ⟨sprintfAux format.data args⟩

/-! ## `fibonacci` -/

/-- Variables of the loop in `fibonacci`, together with the standard output
written so far and a count of the loop-body executions (instrumentation, not
a program variable). -/
structure LoopState where
  i : Int
  previous : Int
  current : Int
  output : List String
  iterations : Nat
deriving DecidableEq

/-- One execution of the loop body followed by the post statement `i++`:
the `Printf` call sees `n` and the current `i`, then
`previous, current = current, previous+current`, then `i++`. -/
def loopBody (n : Int) (s : LoopState) : LoopState :=
  { i := wrapInt (s.i + 1)
    previous := s.current
    current := wrapInt (s.previous + s.current)
    output := s.output ++
      [sprintf "Calculating fibonacci for %d, currently at %d\n" [n, s.i]]
    iterations := s.iterations + 1 }

/-- The loop `for ...; i <= n; i++ { ... }` run with a bound on the number of
body executions.  `some s` is the state at loop exit. -/
def runLoop (n : Int) : Nat → LoopState → Option LoopState
  | 0, s => if s.i ≤ n then none else some s
  | fuel + 1, s => if s.i ≤ n then runLoop n fuel (loopBody n s) else some s

/-- What a completed call of `fibonacci` has done: the value returned, the
lines written to standard output, and the number of loop iterations. -/
structure Result where
  value : Int
  output : List String
  iterations : Nat
deriving DecidableEq

/-- The state on entry to the loop: `previous, current := 0, 1` and `i := 2`. -/
def loopInit : LoopState :=
  { i := 2, previous := 0, current := 1, output := [], iterations := 0 }

/-- The function `fibonacci(n int) int`. -/
def fibonacci (fuel : Nat) (n : Int) : Option Result :=
  if n ≤ 1 then
    some { value := n, output := [], iterations := 0 }
  else
    (runLoop n fuel loopInit).map fun s =>
      { value := s.current, output := s.output, iterations := s.iterations }

/-! ## The mathematical sequence and closed forms used in the proofs -/

/-- The Fibonacci numbers as the specification words them:
`F(0) = 0`, `F(1) = 1`, `F(k) = F(k-1) + F(k-2)`. -/
def fibSpec : Nat → Nat
  | 0 => 0
  | 1 => 1
  | k + 2 => fibSpec (k + 1) + fibSpec k

/-- The line reported for target `n` at iteration index `i`. -/
def progressLine (n i : Int) : String :=
  "Calculating fibonacci for " ++ formatInt n ++ ", currently at " ++ formatInt i ++ "\n"

/-- The state after `j` loop iterations, in closed form. -/
def stateAfter (n : Int) (j : Nat) : LoopState :=
  { i := 2 + (j : Int)
    previous := wrapInt (fibSpec j)
    current := wrapInt (fibSpec (j + 1))
    output := (List.range j).map fun (t : Nat) => progressLine n (2 + (t : Int))
    iterations := j }

/-! ## `main` -/

/-- A file handle as returned by `os.Create`. -/
structure File where
  name : String
deriving DecidableEq

/-- Error values that the library calls of `main` can return. -/
inductive GoError
  | createFailed
  | startFailed
deriving DecidableEq

/-- The actions of the main goroutine. -/
inductive Action
  | osCreate (name : String)
  | traceStart (w : Option File)
  | gomaxprocs (n : Int)
  | goFibonacci (n : Int)
  | sleep (nanoseconds : Int)
  | traceStop
deriving DecidableEq

/-- The outcomes the surroundings decide: whether `os.Create` and
`trace.Start` return an error. -/
structure Env where
  createFails : Bool
  startFails : Bool
deriving DecidableEq

/-- State of the main goroutine: the actions performed so far (oldest first),
the calls registered with `defer` (latest first), and the errors the program
has surfaced. -/
structure Proc where
  performed : List Action
  deferred : List Action
  reported : List GoError
deriving DecidableEq

/-- Record one action as performed. -/
def Proc.perform (p : Proc) (a : Action) : Proc :=
  { p with performed := p.performed ++ [a] }

/-- The call `os.Create(name)`: a handle and no error, or no handle and an error. -/
def osCreate (env : Env) (name : String) (p : Proc) :
    (Option File × Option GoError) × Proc :=
  (if env.createFails then (none, some GoError.createFailed) else (some ⟨name⟩, none),
   p.perform (Action.osCreate name))

/-- The call `trace.Start(w)`. -/
def traceStart (env : Env) (w : Option File) (p : Proc) : Option GoError × Proc :=
  (if env.startFails then some GoError.startFailed else none,
   p.perform (Action.traceStart w))

/-- The statement `defer f()`. -/
def deferCall (a : Action) (p : Proc) : Proc :=
  { p with deferred := a :: p.deferred }

/-- The call `runtime.GOMAXPROCS(n)`; the previous setting it returns is unused. -/
def gomaxprocs (n : Int) (p : Proc) : Proc :=
  p.perform (Action.gomaxprocs n)

/-- The statement `go fibonacci(n)`: the task is launched and nothing of it is
awaited or read. -/
def goFibonacci (n : Int) (p : Proc) : Proc :=
  p.perform (Action.goFibonacci n)

/-- The constant `time.Second`, a duration in nanoseconds. -/
def second : Int := 1000000000

/-- The call `time.Sleep(d)`. -/
def timeSleep (d : Int) (p : Proc) : Proc :=
  p.perform (Action.sleep d)

/-- Function return: the deferred calls run, latest registered first. -/
def returnFrom (p : Proc) : Proc :=
  { p with performed := p.performed ++ p.deferred, deferred := [] }

/-- The function `main`. -/
def main (env : Env) : Proc :=
  let p0 : Proc := { performed := [], deferred := [], reported := [] }
  let r1 := osCreate env "trace.out" p0
  let file := r1.1.1
  let r2 := traceStart env file r1.2
  let p3 := deferCall Action.traceStop r2.2
  let p4 := gomaxprocs 1 p3
  let p5 := goFibonacci 1000000000 p4
  let p6 := goFibonacci 2000000000 p5
  let p7 := timeSleep (3 * second) p6
  returnFrom p7

/-! ## Lemmas on machine integers -/

theorem wrapInt_of_inRange (x : Int) (hlo : minInt ≤ x) (hhi : x ≤ maxInt) :
    wrapInt x = x := by
  unfold minInt at hlo
  unfold maxInt at hhi
  unfold wrapInt
  simp only
  split <;> omega

theorem wrapInt_le_maxInt (x : Int) : wrapInt x ≤ maxInt := by
  unfold wrapInt maxInt
  simp only
  split <;> omega

theorem minInt_le_wrapInt (x : Int) : minInt ≤ wrapInt x := by
  unfold wrapInt minInt
  simp only
  split <;> omega

theorem wrapInt_add_wrapInt (a b : Int) :
    wrapInt (wrapInt a + wrapInt b) = wrapInt (a + b) := by
  unfold wrapInt
  simp only
  split <;> split <;> split <;> split <;> omega

/-! ## Lemmas on the output line -/

theorem sprintf_progressLine (n i : Int) :
    sprintf "Calculating fibonacci for %d, currently at %d\n" [n, i] = progressLine n i := by
  apply String.ext
  simp [sprintf, sprintfAux, progressLine, String.data_append]

/-! ## Lemmas on the loop -/

theorem fibSpec_add_two (k : Nat) : fibSpec (k + 2) = fibSpec (k + 1) + fibSpec k := by
  simp [fibSpec]

theorem loopBody_stateAfter (n : Int) (j : Nat) (hj : 2 + (j : Int) < maxInt) :
    loopBody n (stateAfter n j) = stateAfter n (j + 1) := by
  have hi : wrapInt (2 + (j : Int) + 1) = 2 + ((j + 1 : Nat) : Int) := by
    rw [wrapInt_of_inRange]
    · push_cast; ring
    · unfold minInt; omega
    · omega
  have hc : wrapInt (wrapInt (fibSpec j) + wrapInt (fibSpec (j + 1)))
      = wrapInt (fibSpec (j + 1 + 1)) := by
    rw [wrapInt_add_wrapInt, fibSpec_add_two]
    push_cast
    rw [add_comm]
  simp only [loopBody, stateAfter, hi, hc, sprintf_progressLine, List.range_succ,
    List.map_append, List.map_cons, List.map_nil]

theorem stateAfter_zero (n : Int) : stateAfter n 0 = loopInit := by
  simp [stateAfter, loopInit, fibSpec, wrapInt]

/-- From the state after `j` iterations, `m` further iterations reach the loop
exit when `i + m = n + 1`, provided the fuel covers them. -/
theorem runLoop_stateAfter (n : Int) (hn : n < maxInt) :
    ∀ (m j fuel : Nat), 2 + (j : Int) + (m : Int) = n + 1 → m ≤ fuel →
      runLoop n fuel (stateAfter n j) = some (stateAfter n (j + m)) := by
  intro m
  induction m with
  | zero =>
    intro j fuel hm _
    have hgt : ¬ (stateAfter n j).i ≤ n := by
      simp only [stateAfter]; omega
    cases fuel <;> simp [runLoop, hgt]
  | succ m ih =>
    intro j fuel hm hf
    have hle : (stateAfter n j).i ≤ n := by
      simp only [stateAfter]; omega
    obtain ⟨fuel, rfl⟩ : ∃ f, fuel = f + 1 := ⟨fuel - 1, by omega⟩
    have hj : 2 + (j : Int) < maxInt := by omega
    simp only [runLoop, hle, if_true, loopBody_stateAfter n j hj]
    rw [ih (j + 1) fuel (by push_cast; omega) (by omega)]
    congr 2
    omega

/-- With less fuel than iterations still due, the run is cut short. -/
theorem runLoop_stateAfter_none (n : Int) (hn : n < maxInt) :
    ∀ (fuel j : Nat), 2 + (j : Int) + (fuel : Int) < n + 1 →
      runLoop n fuel (stateAfter n j) = none := by
  intro fuel
  induction fuel with
  | zero =>
    intro j hm
    have hle : (stateAfter n j).i ≤ n := by
      simp only [stateAfter]; omega
    simp [runLoop, hle]
  | succ fuel ih =>
    intro j hm
    have hle : (stateAfter n j).i ≤ n := by
      simp only [stateAfter]; omega
    have hj : 2 + (j : Int) < maxInt := by omega
    simp only [runLoop, hle, if_true, loopBody_stateAfter n j hj]
    exact ih (j + 1) (by push_cast; omega)

/-- Closed form of `fibonacci` on `2 ≤ n < maxInt`. -/
theorem fibonacci_closed (N : Nat) (h2 : 2 ≤ N) (hmax : (N : Int) < maxInt)
    (fuel : Nat) (hf : N - 1 ≤ fuel) :
    fibonacci fuel N = some
      { value := wrapInt (fibSpec N)
        output := (List.range (N - 1)).map fun (t : Nat) => progressLine N (2 + (t : Int))
        iterations := N - 1 } := by
  have hnot : ¬ ((N : Int) ≤ 1) := by omega
  have hrun := runLoop_stateAfter N hmax (N - 1) 0 fuel (by omega) hf
  rw [stateAfter_zero] at hrun
  have hN : N - 1 + 1 = N := by omega
  simp [fibonacci, hnot, hrun, stateAfter, hN]

/-- More fuel never changes a result already reached. -/
theorem runLoop_fuel_mono (n : Int) :
    ∀ (fuel k : Nat) (s r : LoopState), runLoop n fuel s = some r →
      runLoop n (fuel + k) s = some r := by
  intro fuel
  induction fuel with
  | zero =>
    intro k s r h
    by_cases hc : s.i ≤ n
    · simp [runLoop, hc] at h
    · cases k <;> simpa [runLoop, hc] using h
  | succ fuel ih =>
    intro k s r h
    by_cases hc : s.i ≤ n
    · have hk : fuel + 1 + k = (fuel + k) + 1 := by omega
      rw [hk]
      simp only [runLoop, hc, if_true] at h ⊢
      exact ih k _ _ h
    · have hk : fuel + 1 + k = (fuel + k) + 1 := by omega
      rw [hk]
      simpa [runLoop, hc] using h

theorem fibonacci_fuel_mono (n : Int) (fuel k : Nat) (r : Result)
    (h : fibonacci fuel n = some r) : fibonacci (fuel + k) n = some r := by
  unfold fibonacci at h ⊢
  by_cases hn : n ≤ 1
  · simpa [hn] using h
  · simp only [hn, if_false, Option.map_eq_some'] at h ⊢
    obtain ⟨s, hs, hr⟩ := h
    exact ⟨s, runLoop_fuel_mono n fuel k loopInit s hs, hr⟩

/-- At `n = maxInt` the condition `i <= n` holds in every state, so no amount
of fuel reaches the loop exit. -/
theorem runLoop_maxInt_none :
    ∀ (fuel : Nat) (s : LoopState), s.i ≤ maxInt → runLoop maxInt fuel s = none := by
  intro fuel
  induction fuel with
  | zero => intro s hs; simp [runLoop, hs]
  | succ fuel ih =>
    intro s hs
    simp only [runLoop, hs, if_true]
    exact ih _ (wrapInt_le_maxInt _)

/-! ## Lemmas on the mathematical sequence -/

theorem fibSpec_le_succ (k : Nat) : fibSpec k ≤ fibSpec (k + 1) := by
  cases k with
  | zero => simp [fibSpec]
  | succ k => rw [fibSpec_add_two]; omega

theorem fibSpec_mono {a b : Nat} (h : a ≤ b) : fibSpec a ≤ fibSpec b :=
  monotone_nat_of_le_succ fibSpec_le_succ h

theorem fibSpec_92 : fibSpec 92 = 7540113804746346429 := by decide

theorem fibSpec_93 : fibSpec 93 = 12200160415121876738 := by decide

/-- On `0 ≤ n < maxInt`, fuel for `n - 1` iterations gives a result, whose value
is the wrapped Fibonacci number. -/
theorem fibonacci_value (N : Nat) (hmax : (N : Int) < maxInt)
    (fuel : Nat) (hf : N - 1 ≤ fuel) :
    ∃ r, fibonacci fuel N = some r ∧ r.value = wrapInt (fibSpec N) := by
  by_cases h2 : 2 ≤ N
  · rw [fibonacci_closed N h2 hmax fuel hf]
    refine ⟨_, rfl, ?_⟩
    simp only
  · have hN : N = 0 ∨ N = 1 := by omega
    rcases hN with rfl | rfl <;> simp [fibonacci, fibSpec, wrapInt]

/-! ## Lemmas on `main` -/

theorem main_actions_eq (env : Env) :
    (main env).performed =
      [ Action.osCreate "trace.out",
        Action.traceStart (if env.createFails then none else some { name := "trace.out" }),
        Action.gomaxprocs 1,
        Action.goFibonacci 1000000000,
        Action.goFibonacci 2000000000,
        Action.sleep 3000000000,
        Action.traceStop ] := by
  rcases env with ⟨c, t⟩
  cases c <;> cases t <;> rfl

/-! ## The claims -/

/-- C1: for every `n` with `0 ≤ n < maxInt`, a run of `fibonacci(n)` with fuel
for its `n - 1` iterations returns, and the value returned is the 64-bit
two's-complement representative of the Fibonacci number `F(n)`: it lies in
`[-2^63, 2^63)` and is congruent to `F(n)` modulo `2^64`. -/
theorem fibonacci_eq_wrapped_fibSpec (n : Int) (h0 : 0 ≤ n) (hmax : n < maxInt)
    (fuel : Nat) (hf : n.toNat - 1 ≤ fuel) :
    ∃ r, fibonacci fuel n = some r ∧
      r.value = wrapInt (fibSpec n.toNat) ∧
      -9223372036854775808 ≤ r.value ∧ r.value < 9223372036854775808 ∧
      r.value % 18446744073709551616 = (fibSpec n.toNat : Int) % 18446744073709551616 := by
  obtain ⟨N, rfl⟩ := Int.eq_ofNat_of_zero_le h0
  simp only [Int.toNat_ofNat] at hf ⊢
  obtain ⟨r, hr, hv⟩ := fibonacci_value N hmax fuel hf
  refine ⟨r, hr, hv, ?_, ?_, ?_⟩
  · have := minInt_le_wrapInt (fibSpec N)
    unfold minInt at this
    omega
  · have := wrapInt_le_maxInt (fibSpec N)
    unfold maxInt at this
    omega
  · rw [hv]
    unfold wrapInt
    simp only
    split <;> omega

theorem fibonacci_eq_wrapped_fibSpec_witness :
    ∃ r, fibonacci 9 10 = some r ∧
      r.value = wrapInt (fibSpec (10 : Int).toNat) ∧
      -9223372036854775808 ≤ r.value ∧ r.value < 9223372036854775808 ∧
      r.value % 18446744073709551616
        = (fibSpec (10 : Int).toNat : Int) % 18446744073709551616 :=
  fibonacci_eq_wrapped_fibSpec 10 (by decide) (by decide) 9 (by decide)

/-- C2: for every `n ≤ 1`, negative values included, `fibonacci(n)` returns
`n` itself, runs no loop iteration and writes no line, whatever the fuel. -/
theorem fibonacci_le_one (n : Int) (h : n ≤ 1) (fuel : Nat) :
    fibonacci fuel n = some { value := n, output := [], iterations := 0 } := by
  simp [fibonacci, h]

theorem fibonacci_le_one_witness :
    fibonacci 0 (-7) = some { value := -7, output := [], iterations := 0 } :=
  fibonacci_le_one (-7) (by decide) 0

/-- C3: for every `n` with `2 ≤ n < maxInt`, `fibonacci(n)` runs `n - 1`
iterations and writes exactly `n - 1` lines, the `k`-th of them (from 0) being
`Calculating fibonacci for <n>, currently at <k+2>` followed by a newline; with
less fuel than `n - 1` the run is not finished. -/
theorem fibonacci_output (n : Int) (h2 : 2 ≤ n) (hmax : n < maxInt) (fuel : Nat) :
    (n.toNat - 1 ≤ fuel →
      ∃ r, fibonacci fuel n = some r ∧
        r.iterations = n.toNat - 1 ∧
        r.output.length = n.toNat - 1 ∧
        r.output = (List.range (n.toNat - 1)).map fun (k : Nat) =>
          "Calculating fibonacci for " ++ toString n ++ ", currently at "
            ++ toString (2 + (k : Int)) ++ "\n") ∧
    (fuel < n.toNat - 1 → fibonacci fuel n = none) := by
  obtain ⟨N, rfl⟩ := Int.eq_ofNat_of_zero_le (by omega : (0 : Int) ≤ n)
  simp only [Int.toNat_ofNat]
  have h2N : 2 ≤ N := by omega
  constructor
  · intro hf
    refine ⟨_, fibonacci_closed N h2N hmax fuel hf, rfl, by simp, ?_⟩
    simp [progressLine, formatInt]
  · intro hf
    have hnot : ¬ ((N : Int) ≤ 1) := by omega
    have hrun := runLoop_stateAfter_none N hmax fuel 0 (by omega)
    rw [stateAfter_zero] at hrun
    simp [fibonacci, hnot, hrun]

theorem fibonacci_output_witness :
    (2 : Int) ≤ 3 ∧ (3 : Int) < maxInt ∧
    ∃ r, fibonacci 2 3 = some r ∧
      r.iterations = (3 : Int).toNat - 1 ∧
      r.output.length = (3 : Int).toNat - 1 ∧
      r.output = (List.range ((3 : Int).toNat - 1)).map fun (k : Nat) =>
        "Calculating fibonacci for " ++ toString (3 : Int) ++ ", currently at "
          ++ toString (2 + (k : Int)) ++ "\n" :=
  ⟨by decide, by decide, (fibonacci_output 3 (by decide) (by decide) 2).1 (by decide)⟩

/-- C4: `fibonacci(10)` returns 55 after exactly 9 iterations and 9 lines,
whose indices are 2, 3, ..., 10 in this order. -/
theorem fibonacci_ten (k : Nat) :
    fibonacci (9 + k) 10 = some
      { value := 55
        output :=
          [ "Calculating fibonacci for 10, currently at 2\n",
            "Calculating fibonacci for 10, currently at 3\n",
            "Calculating fibonacci for 10, currently at 4\n",
            "Calculating fibonacci for 10, currently at 5\n",
            "Calculating fibonacci for 10, currently at 6\n",
            "Calculating fibonacci for 10, currently at 7\n",
            "Calculating fibonacci for 10, currently at 8\n",
            "Calculating fibonacci for 10, currently at 9\n",
            "Calculating fibonacci for 10, currently at 10\n" ]
        iterations := 9 } :=
  fibonacci_fuel_mono 10 9 k _ (by decide)

/-- C5: `fibonacci(2)` writes exactly one line, for index 2 and target 2, and
returns 1. -/
theorem fibonacci_two (k : Nat) :
    fibonacci (1 + k) 2 = some
      { value := 1
        output := [ "Calculating fibonacci for 2, currently at 2\n" ]
        iterations := 1 } :=
  fibonacci_fuel_mono 2 1 k _ (by decide)

/-- C6: at `n = maxInt`, a non-negative value of the type `int`, the loop of
`fibonacci` never reaches its exit: no amount of fuel yields a result. -/
theorem fibonacci_maxInt_diverges :
    (0 : Int) ≤ 9223372036854775807 ∧
      ∀ fuel : Nat, fibonacci fuel 9223372036854775807 = none := by
  refine ⟨by decide, fun fuel => ?_⟩
  have h := runLoop_maxInt_none fuel loopInit (by decide)
  have hnot : ¬ ((9223372036854775807 : Int) ≤ 1) := by decide
  unfold maxInt at h
  simp [fibonacci, hnot, h]

/-- C7: whatever the outcomes of the library calls, the main goroutine performs,
in this order: create `trace.out`, start the trace on the handle obtained,
set `GOMAXPROCS(1)`, launch `fibonacci(1000000000)`, launch
`fibonacci(2000000000)`, sleep 3 seconds, and last of all stop the trace;
no deferred call is left pending. -/
theorem main_performed (env : Env) :
    (main env).performed =
      [ Action.osCreate "trace.out",
        Action.traceStart (if env.createFails then none else some { name := "trace.out" }),
        Action.gomaxprocs 1,
        Action.goFibonacci 1000000000,
        Action.goFibonacci 2000000000,
        Action.sleep 3000000000,
        Action.traceStop ] ∧
    (main env).deferred = [] := by
  rcases env with ⟨c, t⟩
  cases c <;> cases t <;> exact ⟨rfl, rfl⟩

/-- C8: the errors of `os.Create` and `trace.Start` are ignored: in every
environment the actions after these two calls are those of the run in which
neither fails (one thread, both launches with the same arguments, the
3-second sleep, the trace stop), and `main` surfaces no error. -/
theorem main_ignores_errors (env : Env) :
    (main env).performed.drop 2 =
      [ Action.gomaxprocs 1,
        Action.goFibonacci 1000000000,
        Action.goFibonacci 2000000000,
        Action.sleep 3000000000,
        Action.traceStop ] ∧
    (main env).performed.drop 2 =
      (main { createFails := false, startFails := false }).performed.drop 2 ∧
    (main env).performed.length =
      (main { createFails := false, startFails := false }).performed.length ∧
    (main env).reported = [] := by
  rcases env with ⟨c, t⟩
  cases c <;> cases t <;> exact ⟨rfl, rfl, rfl, rfl⟩

/-- C10: with the 64-bit `int`, for `0 ≤ n < maxInt` the value returned by
`fibonacci(n)` is the exact Fibonacci number `F(n)` if and only if `n ≤ 92`;
`fibonacci(93)` returns `F(93) - 2^64 = -6246583658587674878`, a negative
value; and both arguments that `main` passes lie above 92 and below `maxInt`. -/
theorem fibonacci_exact_iff (n : Int) (h0 : 0 ≤ n) (hmax : n < maxInt)
    (fuel : Nat) (hf : n.toNat - 1 ≤ fuel) :
    (∃ r, fibonacci fuel n = some r ∧ (r.value = (fibSpec n.toNat : Int) ↔ n ≤ 92)) ∧
    (∃ r, fibonacci 92 93 = some r ∧ r.value = -6246583658587674878 ∧
      r.value = (fibSpec 93 : Int) - 18446744073709551616 ∧ r.value < 0) ∧
    (∀ (env : Env) (a : Int), Action.goFibonacci a ∈ (main env).performed →
      (a = 1000000000 ∨ a = 2000000000) ∧ 92 < a ∧ a < maxInt) := by
  refine ⟨?_, ?_, ?_⟩
  · obtain ⟨N, rfl⟩ := Int.eq_ofNat_of_zero_le h0
    simp only [Int.toNat_ofNat] at hf ⊢
    obtain ⟨r, hr, hv⟩ := fibonacci_value N hmax fuel hf
    refine ⟨r, hr, ?_⟩
    rw [hv]
    constructor
    · intro heq
      by_contra hgt
      have h93 : fibSpec 93 ≤ fibSpec N := fibSpec_mono (by omega)
      rw [fibSpec_93] at h93
      have hle := wrapInt_le_maxInt (fibSpec N)
      unfold maxInt at hle
      omega
    · intro hle
      have h92 : fibSpec N ≤ fibSpec 92 := fibSpec_mono (by omega)
      rw [fibSpec_92] at h92
      apply wrapInt_of_inRange
      · unfold minInt; omega
      · unfold maxInt; omega
  · obtain ⟨r, hr, hv⟩ := fibonacci_value 93 (by decide) 92 (by decide)
    refine ⟨r, hr, ?_⟩
    rw [hv, fibSpec_93]
    decide
  · intro env a ha
    rw [(main_actions_eq env)] at ha
    simp only [List.mem_cons, Action.goFibonacci.injEq, List.mem_singleton, reduceCtorEq,
      false_or, or_false, List.not_mem_nil] at ha
    unfold maxInt
    omega

theorem fibonacci_exact_iff_witness :
    (∃ r, fibonacci 92 93 = some r ∧
      (r.value = (fibSpec (93 : Int).toNat : Int) ↔ (93 : Int) ≤ 92)) ∧
    (∃ r, fibonacci 92 93 = some r ∧ r.value = -6246583658587674878 ∧
      r.value = (fibSpec 93 : Int) - 18446744073709551616 ∧ r.value < 0) ∧
    (∀ (env : Env) (a : Int), Action.goFibonacci a ∈ (main env).performed →
      (a = 1000000000 ∨ a = 2000000000) ∧ 92 < a ∧ a < maxInt) :=
  fibonacci_exact_iff 93 (by decide) (by decide) 92 (by decide)

end CooperativePreemption
